import Mathlib

/-!
Verification of the matching/alignment core of `dejavu` against its
specification.  The definitions below are a shallow embedding of
`src/dejavu/base_classes/common_database.py` (line numbers refer to that
file): Python dictionaries become insertion-ordered association lists,
numpy arrays become lists of integers, Python exceptions become
`Except String`, and Python float arithmetic is modelled as exact
rational arithmetic.
-/

namespace Dejavu

/-- Decidable equality for `Except`, used to evaluate runs of the embedded
matching operation on concrete inputs. -/
instance {ε α : Type} [DecidableEq ε] [DecidableEq α] : DecidableEq (Except ε α) := by
  intro a b
  cases a <;> cases b
  case error.error x y =>
    exact if h : x = y then .isTrue (by rw [h]) else .isFalse (by intro hc; cases hc; exact h rfl)
  case ok.ok x y =>
    exact if h : x = y then .isTrue (by rw [h]) else .isFalse (by intro hc; cases hc; exact h rfl)
  all_goals exact .isFalse (by intro hc; cases hc)

/-- Read access `m[k]` on an insertion-ordered association list modelling a
Python `dict`; `none` models a raised `KeyError`. -/
def dictGet {κ α : Type} [DecidableEq κ] (k : κ) : List (κ × α) → Option α
  | [] => none
  | p :: rest => if p.1 = k then some p.2 else dictGet k rest

/-- Assignment `m[k] = v` on an insertion-ordered association list modelling a
Python `dict`: an existing key keeps its position, a new key is appended at
the end (Python 3.7+ dict semantics). -/
def dictSet {κ α : Type} [DecidableEq κ] (k : κ) (v : α) : List (κ × α) → List (κ × α)
  | [] => [(k, v)]
  | p :: rest => if p.1 = k then (k, v) :: rest else p :: dictSet k v rest

/-- Python `str.upper()` restricted to ASCII; fingerprint tokens are
hexadecimal ASCII strings, for which `Char.toUpper` per character agrees
with Python. -/
def upperStr (s : String) : String := ⟨s.data.map Char.toUpper⟩

/-- `np.sort` on integer data (line 180).  The result of sorting an integer
list ascending is its unique sorted permutation, so it is embedded by any
correct sorting algorithm; we use insertion sort. -/
def npSort (data : List Int) : List Int := List.insertionSort (· ≤ ·) data

/-- `MIN_GROUP_SIZE` (line 178). -/
def MIN_GROUP_SIZE : Nat := 10

/-- `MIN_DISTANCE` (line 179). -/
def MIN_DISTANCE : Int := 100

/-- The scanning loop of `group_points` (lines 182-194): `acc` is
`current_group`, `prev` is the previously scanned element `data[i-1]`, and
the returned list contains every formed group including the final one. -/
def splitRuns (acc : List Int) (prev : Int) : List Int → List (List Int)
  | [] => [acc]
  | x :: xs =>
    if x - prev ≤ MIN_DISTANCE then splitRuns (acc ++ [x]) x xs
    else acc :: splitRuns [x] x xs

/-- `group_points` (lines 177-195): sort, scan into gap-bounded groups, keep
the groups longer than `MIN_GROUP_SIZE`.  `none` models the `IndexError`
raised by `data[0]` on empty input. -/
def group_points (data : List Int) : Option (List (List Int)) :=
  match npSort data with
  | [] => none
  | d :: rest =>
    some ((splitRuns [d] d rest).filter (fun g => decide (MIN_GROUP_SIZE < g.length)))

/-- Round half-to-even to an integer: the rounding mode of Python's built-in
`round`, applied to an exact rational value. -/
def roundHalfEven (x : ℚ) : ℤ :=
  if x - ⌊x⌋ < 1/2 then ⌊x⌋
  else if 1/2 < x - ⌊x⌋ then ⌊x⌋ + 1
  else if Even ⌊x⌋ then ⌊x⌋ else ⌊x⌋ + 1

/-- Python `round(x, 5)` on an exact rational value. -/
def round5 (x : ℚ) : ℚ := (roundHalfEven (x * 100000) : ℚ) / 100000

/-- `convert_to_sec2` (lines 197-198).  Modelled from the spec: the constants
`DEFAULT_FS`, `DEFAULT_WINDOW_SIZE` and `DEFAULT_OVERLAP_RATIO` live in
`dejavu/config/settings.py`, which is not part of the visible sources; the
spec only says they are fixed extraction-scheme constants (non-negative for
the monotonicity property), so they are kept as parameters `fs`, `win`,
`ov` here.  Python float arithmetic is modelled as exact rational
arithmetic. -/
def convert_to_sec2 (fs win ov : ℚ) (offset : Int) : ℚ :=
  round5 ((offset : ℚ) / fs * win * ov)

/-- `get_bounds_in_sec` (lines 201-207): bounds in seconds of the first
qualifying group, or the sentinel `(-1, -1)` when no group qualifies.
`none` models a raised exception (empty input to `group_points`). -/
def get_bounds_in_sec (fs win ov : ℚ) (data : List Int) : Option (ℚ × ℚ) :=
  match group_points data with
  | none => none
  | some [] => some (-1, -1)
  | some (g :: _) =>
    match g.min?, g.max? with
    | some a, some b => some (convert_to_sec2 fs win ov a, convert_to_sec2 fs win ov b)
    | _, _ => none

/-- `bin_width` (line 272). -/
def bin_width : Int := 5

/-- Number of elements of `np.arange(start, stop, step)` for positive integer
`step`: `max 0 (ceil ((stop - start) / step))`. -/
def arangeLen (start stop step : Int) : Nat :=
  (stop - start + step - 1).toNat / step.toNat

/-- `np.arange(start, stop, step)` on integers. -/
def arange (start stop step : Int) : List Int :=
  (List.range (arangeLen start stop step)).map (fun i : Nat => start + step * (i : Int))

/-- `np.histogram(data, bins=edges)` for a monotonically increasing edge
list: with `n+1` edges there are `n` counts; every bin is half-open
`[e_i, e_(i+1))` except the last one, which is closed `[e_(n-1), e_n]`
(documented numpy behaviour). -/
def npHistogram (data edges : List Int) : List Nat :=
  (List.range (edges.length - 1)).map (fun i =>
    if i + 2 = edges.length then
      data.countP (fun x => decide (edges.getD i 0 ≤ x) && decide (x ≤ edges.getD (i+1) 0))
    else
      data.countP (fun x => decide (edges.getD i 0 ≤ x) && decide (x < edges.getD (i+1) 0)))

/-- Maximum of a list of counts (`hist.max()`; `0` is only reached on the
empty list, on which numpy raises instead — callers guard that case). -/
def listMax (l : List Nat) : Nat := l.foldl max 0

/-- `np.argmax`: index of the first occurrence of the maximum. -/
def argmaxFirst (l : List Nat) : Nat := l.indexOf (listMax l)

/-- The histogram alignment step of `return_matches` (lines 272-278, plus
line 283's `hist.max()`): build `np.arange(min, max + 5, 5)` bin edges over
the deltas, histogram them, and return the first maximal bin's bounds
together with the maximal count.  Errors model the `ValueError`s numpy
raises on an empty delta array (`min`/`max` of an empty array) and on an
empty histogram (`argmax` of an empty sequence, which happens when the edge
list has a single element). -/
def histogramAlign (deltas : List Int) : Except String (Int × Int × Nat) :=
  match deltas.min?, deltas.max? with
  | some mn, some mx =>
    let edges := arange mn (mx + bin_width) bin_width
    let hist := npHistogram deltas edges
    if hist.length = 0 then
      Except.error "ValueError: attempt to get argmax of an empty sequence"
    else
      Except.ok (edges.getD (argmaxFirst hist) 0, edges.getD (argmaxFirst hist + 1) 0, listMax hist)
  | _, _ => Except.error "ValueError: zero-size array to reduction operation minimum"

/-- Bin index of a delta in the spec's brute-force reference binning: bin `j`
is the half-open interval `[min + 5*j, min + 5*(j+1))`. -/
def binIdx (mn x : Int) : Nat := (x - mn).toNat / 5

/-- Brute-force reference histogram, built from the spec's words (not from the
source): partition `[min, max]` into consecutive half-open bins of width 5
starting at `min`, and count the deltas falling in each bin. -/
def bruteCounts (deltas : List Int) (mn mx : Int) : List Nat :=
  (List.range (binIdx mn mx + 1)).map (fun j => deltas.countP (fun x => decide (binIdx mn x = j)))

/-- Maximum bin frequency of the spec's brute-force binning. -/
def bruteMax (deltas : List Int) (mn mx : Int) : Nat := listMax (bruteCounts deltas mn mx)

/-- Winning bin of the spec's brute-force binning: lowest-valued bin attaining
the maximum count (first index of the maximum). -/
def bruteWin (deltas : List Int) (mn mx : Int) : Nat := argmaxFirst (bruteCounts deltas mn mx)

/-- A `StoredRow` `(hash, song id, stored offset)` as returned by one batched
lookup (line 251). -/
structure Row where
  hsh : String
  sid : Nat
  offset : Int
deriving DecidableEq

/-- The per-operation accumulator state of `return_matches`: `dedup_hashes`,
`map_db_offsets`, `map_ch_offsets` and `results` (lines 236-241), all
insertion-ordered dictionaries / lists. -/
structure AccState where
  dedup : List (Nat × Nat)
  map_db : List (Nat × List Int)
  map_ch : List (Nat × List Int)
  results : List (Nat × Int)
deriving DecidableEq

/-- The fresh accumulator state at the start of a matching operation. -/
def initAcc : AccState := ⟨[], [], [], []⟩

/-- One iteration of the mapper-building loop (lines 227-231): append the
query offset to the list stored under the upper-cased hash, creating the
entry if absent. -/
def mapperInsert (m : List (String × List Int)) (p : String × Int) : List (String × List Int) :=
  match dictGet (upperStr p.1) m with
  | some offs => dictSet (upperStr p.1) (offs ++ [p.2]) m
  | none => dictSet (upperStr p.1) [p.2] m

/-- Lines 226-231: build `mapper`, the dictionary from upper-cased query hash
to the list of its query offsets, in first-insertion order. -/
def buildMapper (hashes : List (String × Int)) : List (String × List Int) :=
  hashes.foldl mapperInsert []

/-- Lines 251-266: process one fetched row `(hsh, sid, offset)`.

On the first row for a song id (lines 252-257) the source sets
`dedup_hashes[sid] = 1`, creates the fresh lists `db_offsets` and
`ch_offsets`, and then assigns `map_db_offsets[sid] = db_offsets` followed by
`map_db_offsets[sid] = ch_offsets` — the second assignment overwrites the
first under the same key, so `map_db_offsets[sid]` aliases `ch_offsets`
(which receives the query offsets) and `map_ch_offsets` never receives any
entry.  The inner loop (lines 262-266) appends, for every query offset of
`mapper[hsh]` (looked up with the row's hash verbatim, not upper-cased —
`none` models the `KeyError` when the row's hash is not literally a mapper
key), the stored offset to `db_offsets`, the query offset to `ch_offsets`,
and `(sid, offset - query_offset)` to `results`.  Hence after the loop the
entry of `map_db_offsets` for `sid` holds exactly the query offsets
`mapper[hsh]`.

On a later row for the same song id (lines 258-261) the source increments
`dedup_hashes[sid]` and reads `map_db_offsets[sid]` and `map_ch_offsets[sid]`;
the latter raises `KeyError` because `map_ch_offsets` was never written. -/
def processRow (mapper : List (String × List Int)) (st : AccState) (r : Row) :
    Except String AccState :=
  match dictGet r.sid st.dedup with
  | none =>
    match dictGet r.hsh mapper with
    | none => Except.error "KeyError: mapper"
    | some qoffs =>
      Except.ok ⟨dictSet r.sid 1 st.dedup,
                 dictSet r.sid qoffs st.map_db,
                 st.map_ch,
                 st.results ++ qoffs.map (fun q => (r.sid, r.offset - q))⟩
  | some c =>
    match dictGet r.sid st.map_db with
    | none => Except.error "KeyError: map_db_offsets"
    | some dbPrev =>
      match dictGet r.sid st.map_ch with
      | none => Except.error "KeyError: map_ch_offsets"
      | some chPrev =>
        match dictGet r.hsh mapper with
        | none => Except.error "KeyError: mapper"
        | some qoffs =>
          Except.ok ⟨dictSet r.sid (c + 1) st.dedup,
                     dictSet r.sid (dbPrev ++ qoffs.map (fun _ => r.offset)) st.map_db,
                     dictSet r.sid (chPrev ++ qoffs) st.map_ch,
                     st.results ++ qoffs.map (fun q => (r.sid, r.offset - q))⟩

/-- `values[index : index + batch_size]` chunking driven by
`range(0, len(values), batch_size)` (line 244); requires a positive batch
size, which the caller checks. -/
def chunksOf {α : Type} (bs : Nat) (l : List α) : List (List α) :=
  (List.range ((l.length + bs - 1) / bs)).map (fun i => (l.drop (i * bs)).take bs)

/-- Lines 243-266: issue one batched lookup per chunk against the storage
collaborator `db` and fold every returned row into the accumulator. -/
def accumulate (mapper : List (String × List Int)) (chunks : List (List String))
    (db : List String → List Row) : Except String AccState :=
  chunks.foldlM (fun st chunk => (db chunk).foldlM (processRow mapper) st) initAcc

/-- One reported per-item match: the song id with the reference-side and
query-side segment bounds in seconds (lines 284-289; the printed song
metadata is external storage output and does not influence control flow, so
it is not part of the report). -/
structure Report where
  sid : Nat
  xmin : ℚ
  xmax : ℚ
  ymin : ℚ
  ymax : ℚ
deriving DecidableEq

/-- Lines 267-292: for each song id in `dedup_hashes` (insertion order), read
its stored-offset and query-offset lists (a missing key models a raised
`KeyError`), take the elementwise differences as deltas, run the histogram
alignment step, filter the offset pairs to the winning bin, and report the
song iff the maximal bin count exceeds 100; the second component is the
`found` flag (`false` means the "No reusage found." fallback is printed).
`stored.zip sample` models the elementwise numpy operations on the two
offset arrays (they have equal length whenever both keys exist and were
written together). -/
def alignLoop (fs win ov : ℚ) (st : AccState) : Except String (List Report × Bool) :=
  st.dedup.foldlM (fun acc p =>
    match dictGet p.1 st.map_db with
    | none => Except.error "KeyError: map_db_offsets"
    | some stored =>
      match dictGet p.1 st.map_ch with
      | none => Except.error "KeyError: map_ch_offsets"
      | some sample =>
        let pairs := stored.zip sample
        match histogramAlign (pairs.map (fun q => q.1 - q.2)) with
        | Except.error e => Except.error e
        | Except.ok (lo, hi, maxCount) =>
          if 100 < maxCount then
            let kept := pairs.filter (fun q => decide (lo ≤ q.1 - q.2) && decide (q.1 - q.2 < hi))
            match get_bounds_in_sec fs win ov (kept.map Prod.fst),
                  get_bounds_in_sec fs win ov (kept.map Prod.snd) with
            | some xb, some yb => Except.ok (acc.1 ++ [⟨p.1, xb.1, xb.2, yb.1, yb.2⟩], true)
            | _, _ => Except.error "IndexError: index 0 is out of bounds"
          else Except.ok acc) ([], false)

/-- The structured outcome of one `return_matches` call: the returned
`(results, dedup_hashes)` pair plus the per-item reports printed on the way
and the `found` flag (lines 267-308). -/
structure RMOut where
  results : List (Nat × Int)
  dedup : List (Nat × Nat)
  reports : List Report
  found : Bool
deriving DecidableEq

/-- `return_matches` (lines 210-308): build the mapper, chunk the distinct
upper-cased tokens, accumulate the fetched rows, then run the alignment
loop.  A zero batch size models the `ValueError` Python's `range` raises on
a zero step. -/
def return_matches (fs win ov : ℚ) (hashes : List (String × Int)) (batch_size : Nat)
    (db : List String → List Row) : Except String RMOut :=
  if batch_size = 0 then Except.error "ValueError: range arg 3 must not be zero"
  else
    let mapper := buildMapper hashes
    let chunks := chunksOf batch_size (mapper.map Prod.fst)
    match accumulate mapper chunks db with
    | Except.error e => Except.error e
    | Except.ok st =>
      match alignLoop fs win ov st with
      | Except.error e => Except.error e
      | Except.ok r => Except.ok ⟨st.results, st.dedup, r.1, r.2⟩



/-! ## Helper lemmas -/

theorem arange_length (s t p : Int) : (arange s t p).length = arangeLen s t p := by
  simp [arange]

theorem arange_getD (s t p : Int) (i : Nat) (h : i < arangeLen s t p) :
    (arange s t p).getD i 0 = s + p * (i : Int) := by
  rw [List.getD_eq_getElem _ _ (by rw [arange_length]; exact h)]
  simp [arange]

/-- The histogram alignment step raises on any delta array whose minimum
equals its maximum: the edge list `np.arange(min, min + 5, 5)` has a single
element, the histogram has zero bins, and `np.argmax` of an empty sequence
raises `ValueError`. -/
theorem histogramAlign_min_eq_max (deltas : List Int) (m : Int)
    (hmn : deltas.min? = some m) (hmx : deltas.max? = some m) :
    histogramAlign deltas =
      Except.error "ValueError: attempt to get argmax of an empty sequence" := by
  unfold histogramAlign
  rw [hmn, hmx]
  have hlen : arangeLen m (m + bin_width) bin_width = 1 := by
    unfold arangeLen bin_width
    have h9 : m + 5 - m + 5 - 1 = (9 : Int) := by ring
    rw [h9]
    decide
  have harange : (arange m (m + bin_width) bin_width).length = 1 := by
    rw [arange_length, hlen]
  simp only [npHistogram, harange]
  norm_num

theorem foldl_min_replicate (x : Int) : ∀ n : Nat, (List.replicate n x).foldl min x = x := by
  intro n
  induction n with
  | zero => rfl
  | succ n ih => simpa [List.replicate_succ, min_self] using ih

theorem foldl_max_replicate (x : Int) : ∀ n : Nat, (List.replicate n x).foldl max x = x := by
  intro n
  induction n with
  | zero => rfl
  | succ n ih => simpa [List.replicate_succ, max_self] using ih

theorem min?_const (x : Int) (n : Nat) : (x :: List.replicate n x).min? = some x := by
  simp [List.min?, foldl_min_replicate]

theorem max?_const (x : Int) (n : Nat) : (x :: List.replicate n x).max? = some x := by
  simp [List.max?, foldl_max_replicate]

theorem roundHalfEven_bounds (x : ℚ) :
    x - 1/2 ≤ (roundHalfEven x : ℚ) ∧ (roundHalfEven x : ℚ) ≤ x + 1/2 := by
  unfold roundHalfEven
  have hfl : (⌊x⌋ : ℚ) ≤ x := Int.floor_le x
  have hfl2 : x - 1 < (⌊x⌋ : ℚ) := by
    have := Int.lt_floor_add_one x
    linarith
  split
  · constructor <;> linarith
  · split
    · constructor <;> push_cast <;> linarith
    · split
      · constructor <;> linarith
      · constructor <;> push_cast <;> linarith

theorem roundHalfEven_mono {x y : ℚ} (h : x ≤ y) : roundHalfEven x ≤ roundHalfEven y := by
  by_contra hlt
  push_neg at hlt
  have h1 := (roundHalfEven_bounds x).2
  have h2 := (roundHalfEven_bounds y).1
  have hxy : x = y := by
    have : (roundHalfEven y : ℚ) + 1 ≤ (roundHalfEven x : ℚ) := by exact_mod_cast hlt
    linarith
  rw [hxy] at hlt
  exact lt_irrefl _ hlt

theorem round5_mono {x y : ℚ} (h : x ≤ y) : round5 x ≤ round5 y := by
  unfold round5
  have h1 := roundHalfEven_mono (mul_le_mul_of_nonneg_right h (by norm_num : (0:ℚ) ≤ 100000))
  have hc : (roundHalfEven (x * 100000) : ℚ) ≤ (roundHalfEven (y * 100000) : ℚ) := by
    exact_mod_cast h1
  rw [div_eq_mul_inv, div_eq_mul_inv]
  exact mul_le_mul_of_nonneg_right hc (by positivity)

theorem accumulate_no_rows (mapper : List (String × List Int)) (chunks : List (List String))
    (db : List String → List Row) (h : ∀ c ∈ chunks, db c = []) :
    accumulate mapper chunks db = Except.ok initAcc := by
  unfold accumulate
  induction chunks with
  | nil => rfl
  | cons c cs ih =>
    rw [List.foldlM_cons, h c (List.mem_cons_self c cs)]
    simpa [accumulate] using ih (fun c' hc => h c' (List.mem_cons_of_mem _ hc))

theorem dictGet_dictSet_self {κ α : Type} [DecidableEq κ] (k : κ) (v : α) (m : List (κ × α)) :
    dictGet k (dictSet k v m) = some v := by
  induction m with
  | nil => simp [dictGet, dictSet]
  | cons p rest ih =>
    by_cases h : p.1 = k
    · simp [dictGet, dictSet, h]
    · simp [dictGet, dictSet, h, ih]

theorem dictGet_dictSet_ne {κ α : Type} [DecidableEq κ] {k k' : κ} (hne : k' ≠ k) (v : α)
    (m : List (κ × α)) : dictGet k (dictSet k' v m) = dictGet k m := by
  induction m with
  | nil => simp [dictGet, dictSet, hne]
  | cons p rest ih =>
    by_cases h : p.1 = k'
    · simp [dictGet, dictSet, h, hne]
    · by_cases h2 : p.1 = k <;> simp [dictGet, dictSet, h, h2, ih, Ne.symm hne]

theorem mem_mapperInsert_self (m : List (String × List Int)) (p : String × Int) :
    p.2 ∈ (dictGet (upperStr p.1) (mapperInsert m p)).getD [] := by
  unfold mapperInsert
  cases h : dictGet (upperStr p.1) m with
  | none => simp [dictGet_dictSet_self]
  | some offs => simp [dictGet_dictSet_self]

theorem mem_mapperInsert_of_mem {m : List (String × List Int)} {k : String} {v : Int}
    (h : v ∈ (dictGet k m).getD []) (q : String × Int) :
    v ∈ (dictGet k (mapperInsert m q)).getD [] := by
  unfold mapperInsert
  by_cases hk : upperStr q.1 = k
  · subst hk
    cases hm : dictGet (upperStr q.1) m with
    | none => rw [hm] at h; simp at h
    | some offs =>
      rw [hm] at h
      simp only [Option.getD_some] at h
      simp [dictGet_dictSet_self, h]
  · cases hm : dictGet (upperStr q.1) m with
    | none => rwa [dictGet_dictSet_ne hk]
    | some offs => rwa [dictGet_dictSet_ne hk]

theorem mem_mapper_foldl {k : String} {v : Int} :
    ∀ (l : List (String × Int)) (m : List (String × List Int)),
      v ∈ (dictGet k m).getD [] → v ∈ (dictGet k (l.foldl mapperInsert m)).getD []
  | [], _, h => h
  | q :: l, m, h => mem_mapper_foldl l (mapperInsert m q) (mem_mapperInsert_of_mem h q)

theorem mem_buildMapper_aux :
    ∀ (l : List (String × Int)) (m : List (String × List Int)) (p : String × Int), p ∈ l →
      p.2 ∈ (dictGet (upperStr p.1) (l.foldl mapperInsert m)).getD [] := by
  intro l
  induction l with
  | nil => intro m p hp; cases hp
  | cons q l ih =>
    intro m p hp
    rcases List.mem_cons.1 hp with h | h
    · subst h
      exact mem_mapper_foldl l _ (mem_mapperInsert_self m p)
    · exact ih _ p h

theorem keys_dictSet {κ α : Type} [DecidableEq κ] (k : κ) (v : α) (m : List (κ × α)) :
    ∀ k' ∈ (dictSet k v m).map Prod.fst, k' = k ∨ k' ∈ m.map Prod.fst := by
  induction m with
  | nil => simp [dictSet]
  | cons p rest ih =>
    by_cases h : p.1 = k
    · simp only [dictSet, h, if_true]
      intro k' hk'
      simp only [List.map_cons, List.mem_cons] at hk' ⊢
      tauto
    · simp only [dictSet, h, if_false]
      intro k' hk'
      simp only [List.map_cons, List.mem_cons] at hk' ⊢
      rcases hk' with h1 | h1
      · tauto
      · rcases ih k' h1 with h2 | h2 <;> tauto

theorem keys_buildMapper_aux :
    ∀ (l : List (String × Int)) (m : List (String × List Int)) (k : String),
      k ∈ (l.foldl mapperInsert m).map Prod.fst →
      k ∈ m.map Prod.fst ∨ ∃ p ∈ l, k = upperStr p.1 := by
  intro l
  induction l with
  | nil => intro _ k h; exact Or.inl h
  | cons q l ih =>
    intro m k h
    rcases ih (mapperInsert m q) k h with h1 | h1
    · unfold mapperInsert at h1
      rcases hm : dictGet (upperStr q.1) m with _ | offs <;> rw [hm] at h1
      · rcases keys_dictSet _ _ _ _ h1 with h2 | h2
        · exact Or.inr ⟨q, List.mem_cons_self q l, h2⟩
        · exact Or.inl h2
      · rcases keys_dictSet _ _ _ _ h1 with h2 | h2
        · exact Or.inr ⟨q, List.mem_cons_self q l, h2⟩
        · exact Or.inl h2
    · rcases h1 with ⟨p, hp, hk⟩
      exact Or.inr ⟨p, List.mem_cons_of_mem _ hp, hk⟩

/-- Every element of `g` lies more than `MIN_DISTANCE` below every element of
`h`; the separation property between distinct groups. -/
def FarApart (g h : List Int) : Prop := ∀ a ∈ g, ∀ b ∈ h, MIN_DISTANCE < b - a

theorem le_of_chain'_le : ∀ {l : List Int} {x b : Int},
    List.Chain' (· ≤ ·) (x :: l) → b ∈ l → x ≤ b := by
  intro l
  induction l with
  | nil => intro x b _ hb; cases hb
  | cons y l ih =>
    intro x b hc hb
    have hxy : x ≤ y := (List.chain'_cons.1 hc).1
    rcases List.mem_cons.1 hb with h | h
    · exact h ▸ hxy
    · exact le_trans hxy (ih (List.chain'_cons.1 hc).2 h)

theorem splitRuns_spec : ∀ (xs acc : List Int) (prev : Int),
    acc ≠ [] → acc.getLast? = some prev → (∀ a ∈ acc, a ≤ prev) →
    acc.Sorted (· ≤ ·) → acc.Chain' (fun a b => b - a ≤ MIN_DISTANCE) →
    List.Chain' (· ≤ ·) (prev :: xs) →
    (splitRuns acc prev xs).flatten = acc ++ xs ∧
    (∀ g ∈ splitRuns acc prev xs, g ≠ []) ∧
    (∀ g ∈ splitRuns acc prev xs, g.Sorted (· ≤ ·)) ∧
    (∀ g ∈ splitRuns acc prev xs, g.Chain' (fun a b => b - a ≤ MIN_DISTANCE)) ∧
    (splitRuns acc prev xs).Pairwise FarApart := by
  intro xs
  induction xs with
  | nil =>
    intro acc prev hne _ _ hsort hchain _
    have hsp : splitRuns acc prev [] = [acc] := rfl
    rw [hsp]
    refine ⟨by simp, ?_, ?_, ?_, List.pairwise_singleton _ _⟩
    · intro g hg; rw [List.mem_singleton] at hg; subst hg; exact hne
    · intro g hg; rw [List.mem_singleton] at hg; subst hg; exact hsort
    · intro g hg; rw [List.mem_singleton] at hg; subst hg; exact hchain
  | cons x xs ih =>
    intro acc prev hne hlast hub hsort hchain hx
    have hprevx : prev ≤ x := (List.chain'_cons.1 hx).1
    have hxxs : List.Chain' (· ≤ ·) (x :: xs) := (List.chain'_cons.1 hx).2
    by_cases hgap : x - prev ≤ MIN_DISTANCE
    · rw [show splitRuns acc prev (x :: xs) = splitRuns (acc ++ [x]) x xs by
        simp [splitRuns, hgap]]
      have hub' : ∀ a ∈ acc ++ [x], a ≤ x := by
        intro a ha
        rcases List.mem_append.1 ha with h | h
        · exact le_trans (hub a h) hprevx
        · rw [List.mem_singleton.1 h]
      have hsort' : (acc ++ [x]).Sorted (· ≤ ·) := by
        rw [List.Sorted, List.pairwise_append]
        exact ⟨hsort, List.pairwise_singleton _ _,
          fun a ha b hb => (List.mem_singleton.1 hb) ▸ le_trans (hub a ha) hprevx⟩
      have hchain' : (acc ++ [x]).Chain' (fun a b => b - a ≤ MIN_DISTANCE) := by
        rw [List.chain'_append]
        refine ⟨hchain, List.chain'_singleton x, ?_⟩
        intro y hy z hz
        rw [hlast, Option.mem_some_iff] at hy
        simp only [List.head?_cons, Option.mem_some_iff] at hz
        subst hy
        subst hz
        exact hgap
      have := ih (acc ++ [x]) x (by simp) (List.getLast?_concat acc) hub' hsort' hchain' hxxs
      refine ⟨?_, this.2.1, this.2.2.1, this.2.2.2.1, this.2.2.2.2⟩
      rw [this.1]
      simp
    · rw [show splitRuns acc prev (x :: xs) = acc :: splitRuns [x] x xs by
        simp [splitRuns, hgap]]
      have hout := ih [x] x (by simp) rfl (by simp) (List.sorted_singleton x)
        (List.chain'_singleton x) hxxs
      have hmem : ∀ g ∈ splitRuns [x] x xs, ∀ b ∈ g, x ≤ b := by
        intro g hg b hb
        have hbf : b ∈ (splitRuns [x] x xs).flatten := List.mem_flatten.2 ⟨g, hg, hb⟩
        rw [hout.1] at hbf
        rcases List.mem_cons.1 hbf with h | h
        · exact h.ge
        · exact le_of_chain'_le hxxs h
      refine ⟨?_, ?_, ?_, ?_, ?_⟩
      · simp only [List.flatten_cons, hout.1]
        rfl
      · intro g hg
        rcases List.mem_cons.1 hg with h | h
        · exact h ▸ hne
        · exact hout.2.1 g h
      · intro g hg
        rcases List.mem_cons.1 hg with h | h
        · exact h ▸ hsort
        · exact hout.2.2.1 g h
      · intro g hg
        rcases List.mem_cons.1 hg with h | h
        · exact h ▸ hchain
        · exact hout.2.2.2.1 g h
      · rw [List.pairwise_cons]
        refine ⟨?_, hout.2.2.2.2⟩
        intro g hg a ha b hb
        have h1 : a ≤ prev := hub a ha
        have h2 : x ≤ b := hmem g hg b hb
        have h3 : MIN_DISTANCE < x - prev := by omega
        omega


/-- `≤` on `Int` is antisymmetric, packaged for the core `min?` lemmas. -/
instance : Std.Antisymm (fun x1 x2 : Int => x1 ≤ x2) := ⟨fun h1 h2 => le_antisymm h1 h2⟩

theorem int_min?_eq_some_iff {xs : List Int} {a : Int} :
    xs.min? = some a ↔ a ∈ xs ∧ ∀ b ∈ xs, a ≤ b := by
  exact List.min?_eq_some_iff (fun x => le_refl x) min_choice (fun _ _ _ => le_min_iff)

theorem int_max?_eq_some_iff {xs : List Int} {a : Int} :
    xs.max? = some a ↔ a ∈ xs ∧ ∀ b ∈ xs, b ≤ a := by
  exact List.max?_eq_some_iff (fun x => le_refl x) max_choice (fun _ _ _ => max_le_iff)

theorem int_min?_isSome {xs : List Int} (h : xs ≠ []) : ∃ a, xs.min? = some a := by
  cases xs with
  | nil => exact absurd rfl h
  | cons x l => exact ⟨_, rfl⟩

theorem int_max?_isSome {xs : List Int} (h : xs ≠ []) : ∃ a, xs.max? = some a := by
  cases xs with
  | nil => exact absurd rfl h
  | cons x l => exact ⟨_, rfl⟩

theorem group_points_master (data : List Int) (h : data ≠ []) :
    ∃ gs, group_points data = some gs ∧
      (∀ g ∈ gs, g ≠ []) ∧
      (∀ g ∈ gs, g.Sorted (· ≤ ·)) ∧
      (∀ g ∈ gs, g.Chain' (fun a b => b - a ≤ MIN_DISTANCE)) ∧
      gs.Pairwise FarApart ∧
      (∀ g ∈ gs, MIN_GROUP_SIZE < g.length) ∧
      (gs.map List.length).sum ≤ data.length := by
  have hperm := List.perm_insertionSort (· ≤ ·) data
  have hsorted := List.sorted_insertionSort (· ≤ ·) data
  have hnn : npSort data ≠ [] := by
    intro hc
    have := hperm.length_eq
    rw [show List.insertionSort (· ≤ ·) data = npSort data from rfl, hc] at this
    exact h (List.length_eq_zero.1 this.symm)
  rcases hd : npSort data with _ | ⟨d, rest⟩
  · exact absurd hd hnn
  have hgp : group_points data = some ((splitRuns [d] d rest).filter
      (fun g => decide (MIN_GROUP_SIZE < g.length))) := by
    unfold group_points
    rw [hd]
  have hchain : List.Chain' (· ≤ ·) (d :: rest) := by
    have : List.Sorted (· ≤ ·) (npSort data) := hsorted
    rw [hd] at this
    exact this.chain'
  have hspec := splitRuns_spec rest [d] d (by simp) rfl (by simp)
    (List.sorted_singleton d) (List.chain'_singleton d) hchain
  refine ⟨_, hgp, ?_, ?_, ?_, ?_, ?_, ?_⟩
  · intro g hg; exact hspec.2.1 g (List.mem_of_mem_filter hg)
  · intro g hg; exact hspec.2.2.1 g (List.mem_of_mem_filter hg)
  · intro g hg; exact hspec.2.2.2.1 g (List.mem_of_mem_filter hg)
  · exact hspec.2.2.2.2.filter _
  · intro g hg
    have := List.of_mem_filter hg
    exact of_decide_eq_true this
  · have h1 : ((splitRuns [d] d rest).filter
        (fun g => decide (MIN_GROUP_SIZE < g.length))).map List.length |>.Sublist
        ((splitRuns [d] d rest).map List.length) :=
      ((splitRuns [d] d rest).filter_sublist).map List.length
    have h2 := h1.sum_le_sum (by intro a _; exact Nat.zero_le a)
    have h3 : ((splitRuns [d] d rest).map List.length).sum = data.length := by
      rw [← List.length_flatten, hspec.1]
      have : ([d] ++ rest : List Int).length = (npSort data).length := by rw [hd]; rfl
      rw [this]
      exact hperm.length_eq
    omega


/-- Claim C6: for every non-empty integer input, `group_points` returns
groups that are each sorted ascending, with every internal consecutive gap
at most 100, pairwise separated by gaps greater than 100 (hence
non-overlapping and in ascending order), each containing strictly more than
10 elements, and with a total element count bounded by the input length. -/
theorem C6_group_points_properties (data : List Int) (h : data ≠ []) :
    ∃ gs, group_points data = some gs ∧
      (∀ g ∈ gs, g.Sorted (· ≤ ·)) ∧
      (∀ g ∈ gs, g.Chain' (fun a b => b - a ≤ MIN_DISTANCE)) ∧
      gs.Pairwise FarApart ∧
      (∀ g ∈ gs, MIN_GROUP_SIZE < g.length) ∧
      (gs.map List.length).sum ≤ data.length := by
  rcases group_points_master data h with ⟨gs, h1, _, h3, h4, h5, h6, h7⟩
  exact ⟨gs, h1, h3, h4, h5, h6, h7⟩

/-- Witness for C6: the claim instantiated on a concrete 11-element input. -/
theorem C6_group_points_properties_witness : ∃ gs, group_points [0,1,2,3,4,5,6,7,8,9,10] = some gs ∧
    (∀ g ∈ gs, g.Sorted (· ≤ ·)) ∧
    (∀ g ∈ gs, g.Chain' (fun a b => b - a ≤ MIN_DISTANCE)) ∧
    gs.Pairwise FarApart ∧
    (∀ g ∈ gs, MIN_GROUP_SIZE < g.length) ∧
    (gs.map List.length).sum ≤ ([0,1,2,3,4,5,6,7,8,9,10] : List Int).length :=
  C6_group_points_properties [0,1,2,3,4,5,6,7,8,9,10] (by decide)

/-- Claim C7: for every non-empty offsets input, `get_bounds_in_sec` returns
the converted minimum and maximum of the first qualifying group produced by
`group_points` — which starts lower than every later qualifying group —
when one exists, and exactly the sentinel `(-1, -1)` otherwise. -/
theorem C7_get_bounds_first_group (fs win ov : ℚ) (data : List Int) (h : data ≠ []) :
    (∃ g gs, group_points data = some (g :: gs) ∧
      ∃ a b, g.min? = some a ∧ g.max? = some b ∧
        get_bounds_in_sec fs win ov data =
          some (convert_to_sec2 fs win ov a, convert_to_sec2 fs win ov b) ∧
        ∀ g' ∈ gs, ∀ a' : Int, g'.min? = some a' → a < a') ∨
    (group_points data = some [] ∧ get_bounds_in_sec fs win ov data = some (-1, -1)) := by
  rcases group_points_master data h with ⟨gs0, h1, hne, _, _, hpair, _, _⟩
  cases gs0 with
  | nil =>
    right
    refine ⟨h1, ?_⟩
    unfold get_bounds_in_sec
    rw [h1]
  | cons g gs =>
    left
    have hgne : g ≠ [] := hne g (List.mem_cons_self _ _)
    rcases int_min?_isSome hgne with ⟨a, ha⟩
    rcases int_max?_isSome hgne with ⟨b, hb⟩
    refine ⟨g, gs, h1, a, b, ha, hb, ?_, ?_⟩
    · unfold get_bounds_in_sec
      rw [h1]
      dsimp only
      rw [ha, hb]
    · intro g' hg' a' ha'
      have hfar : FarApart g g' := List.rel_of_pairwise_cons hpair hg'
      have hma : a ∈ g := (int_min?_eq_some_iff.1 ha).1
      have hma' : a' ∈ g' := (int_min?_eq_some_iff.1 ha').1
      have h2 := hfar a hma a' hma'
      unfold MIN_DISTANCE at h2
      omega

/-- Witness for C7: the claim instantiated on the concrete input `[0]` (its
only group has a single element, so no group qualifies and the sentinel is
returned). -/
theorem C7_get_bounds_first_group_witness :
    (∃ g gs, group_points [0] = some (g :: gs) ∧
      ∃ a b, g.min? = some a ∧ g.max? = some b ∧
        get_bounds_in_sec 0 0 0 [0] =
          some (convert_to_sec2 0 0 0 a, convert_to_sec2 0 0 0 b) ∧
        ∀ g' ∈ gs, ∀ a' : Int, g'.min? = some a' → a < a') ∨
    (group_points [0] = some [] ∧ get_bounds_in_sec 0 0 0 [0] = some (-1, -1)) :=
  C7_get_bounds_first_group 0 0 0 [0] (by decide)



theorem int_min?_le {xs : List Int} {a b : Int} (h : xs.min? = some a) (hb : b ∈ xs) : a ≤ b :=
  (int_min?_eq_some_iff.1 h).2 b hb

theorem int_max?_ge {xs : List Int} {a b : Int} (h : xs.max? = some a) (hb : b ∈ xs) : b ≤ a :=
  (int_max?_eq_some_iff.1 h).2 b hb

theorem int_max?_mem {xs : List Int} {a : Int} (h : xs.max? = some a) : a ∈ xs :=
  (int_max?_eq_some_iff.1 h).1

theorem foldl_max_mem : ∀ (l : List Nat) (a : Nat), l.foldl max a = a ∨ l.foldl max a ∈ l
  | [], _ => Or.inl rfl
  | x :: xs, a => by
    rw [List.foldl_cons]
    rcases foldl_max_mem xs (max a x) with h | h
    · rw [h]
      rcases max_choice a x with h2 | h2
      · rw [h2]; exact Or.inl rfl
      · rw [h2]; exact Or.inr (List.mem_cons_self x xs)
    · exact Or.inr (List.mem_cons_of_mem _ h)

theorem listMax_mem {l : List Nat} (h : l ≠ []) : listMax l ∈ l := by
  cases l with
  | nil => exact absurd rfl h
  | cons x xs =>
    unfold listMax
    rw [List.foldl_cons, Nat.zero_max]
    rcases foldl_max_mem xs x with h1 | h1
    · rw [h1]; exact List.mem_cons_self x xs
    · exact List.mem_cons_of_mem _ h1

theorem arangeLen_notdvd {mn mx : Int} (hle : mn ≤ mx) (hmod : (mx - mn) % 5 ≠ 0) :
    arangeLen mn (mx + bin_width) bin_width = (mx - mn).toNat / 5 + 2 := by
  unfold arangeLen bin_width
  have h5 : (5:Int).toNat = 5 := rfl
  rw [h5]
  omega

theorem npHistogram_eq_bruteCounts (deltas : List Int) (mn mx : Int)
    (hmn : deltas.min? = some mn) (hmx : deltas.max? = some mx)
    (hmod : (mx - mn) % 5 ≠ 0) :
    npHistogram deltas (arange mn (mx + bin_width) bin_width) = bruteCounts deltas mn mx := by
  have hle : mn ≤ mx := int_min?_le hmn (int_max?_mem hmx)
  have hlb : ∀ x ∈ deltas, mn ≤ x := fun x hx => int_min?_le hmn hx
  have hub : ∀ x ∈ deltas, x ≤ mx := fun x hx => int_max?_ge hmx hx
  have hlen := arangeLen_notdvd hle hmod
  have hLlen : (arange mn (mx + bin_width) bin_width).length = (mx - mn).toNat / 5 + 2 := by
    rw [arange_length, hlen]
  unfold npHistogram bruteCounts
  rw [hLlen]
  have hbq : binIdx mn mx = (mx - mn).toNat / 5 := rfl
  rw [hbq]
  have hr : (mx - mn).toNat / 5 + 2 - 1 = (mx - mn).toNat / 5 + 1 := rfl
  rw [hr]
  apply List.map_congr_left
  intro i hi
  rw [List.mem_range] at hi
  have hgi : (arange mn (mx + bin_width) bin_width).getD i 0 = mn + bin_width * (i : Int) :=
    arange_getD _ _ _ i (by rw [hlen]; omega)
  have hgi1 : (arange mn (mx + bin_width) bin_width).getD (i+1) 0 =
      mn + bin_width * ((i : Int) + 1) := by
    rw [arange_getD _ _ _ (i+1) (by rw [hlen]; omega)]
    push_cast
    ring
  by_cases hlast : i + 2 = (mx - mn).toNat / 5 + 2
  · rw [if_pos hlast, hgi, hgi1]
    apply List.countP_congr
    intro x hx
    have h1 := hlb x hx
    have h2 := hub x hx
    simp only [Bool.and_eq_true, decide_eq_true_eq, binIdx, bin_width]
    omega
  · rw [if_neg hlast, hgi, hgi1]
    apply List.countP_congr
    intro x hx
    have h1 := hlb x hx
    simp only [Bool.and_eq_true, decide_eq_true_eq, binIdx, bin_width]
    omega

/-- Claim C3 (amended): for every delta sequence with at least two distinct
values whose range `max - min` is not a multiple of the bin width 5, the
histogram alignment step returns exactly the brute-force result computed
from the spec's words: the maximal count over half-open width-5 bins
starting at the minimum, with the winning bin the lowest-valued bin
attaining that maximum (first index of the maximum). -/
theorem C3_histogram_matches_brute_force (deltas : List Int) (mn mx : Int)
    (hmn : deltas.min? = some mn) (hmx : deltas.max? = some mx)
    (_hne : mn ≠ mx) (hmod : (mx - mn) % 5 ≠ 0) :
    histogramAlign deltas =
      Except.ok (mn + 5 * (bruteWin deltas mn mx : Int),
                 mn + 5 * ((bruteWin deltas mn mx : Int) + 1),
                 bruteMax deltas mn mx) := by
  have hle : mn ≤ mx := int_min?_le hmn (int_max?_mem hmx)
  have hEq := npHistogram_eq_bruteCounts deltas mn mx hmn hmx hmod
  have hlen := arangeLen_notdvd hle hmod
  have hblen : (bruteCounts deltas mn mx).length = binIdx mn mx + 1 := by
    simp [bruteCounts]
  have hbq : binIdx mn mx = (mx - mn).toNat / 5 := rfl
  unfold histogramAlign
  rw [hmn, hmx]
  dsimp only
  rw [hEq]
  rw [if_neg (by rw [hblen]; omega)]
  have hWlt : argmaxFirst (bruteCounts deltas mn mx) < binIdx mn mx + 1 := by
    rw [← hblen]
    exact List.indexOf_lt_length.2 (listMax_mem (by
      intro hc
      rw [hc] at hblen
      simp at hblen))
  rw [arange_getD _ _ _ _ (by rw [hlen]; omega)]
  rw [arange_getD _ _ _ _ (by rw [hlen]; omega)]
  unfold bruteWin bruteMax bin_width
  push_cast
  ring_nf


/-- Witness for C3: the amended claim instantiated on the concrete deltas
`[0, 3]` (range 3, not a multiple of 5). -/
theorem C3_histogram_matches_brute_force_witness :
    histogramAlign [0, 3] =
      Except.ok (0 + 5 * (bruteWin [0, 3] 0 3 : Int),
                 0 + 5 * ((bruteWin [0, 3] 0 3 : Int) + 1),
                 bruteMax [0, 3] 0 3) :=
  C3_histogram_matches_brute_force [0, 3] 0 3 (by decide) (by decide) (by decide) (by decide)

/-- Counterexample to claim C3 as stated: on the deltas `[0, 5]` (two
distinct values, range 5) the code's histogram has the single closed bin
`[0, 5]` containing both deltas, so its maximal count is 2, while the
spec's brute-force binning into half-open bins `[0,5)`, `[5,10)` gives
maximal count 1: the two results differ. -/
theorem C3_closed_last_bin_counterexample :
    histogramAlign [0, 5] = Except.ok (0, 5, 2) ∧ bruteMax [0, 5] 0 5 = 1 ∧ (2 : Nat) ≠ 1 := by
  decide

/-- Claim C1 (the code violates it): after a single stored row
`("A", 1, 7)` matching the query pair `("A", 0)`, the accumulator holds the
query-offset list `[0]` — not the stored offset 7 — under
`map_db_offsets[1]`, and `map_ch_offsets` has no entry at all (first
conjunct); a second row for the same item raises
`KeyError` on `map_ch_offsets[sid]` (second conjunct).  The StoredOffset
and QueryOffset lists are therefore never two separate index-aligned
lists. -/
theorem C1_per_item_lists_aliased :
    (accumulate (buildMapper [("A", 0)]) [["A"]] (fun _ => [⟨"A", 1, 7⟩]) =
      Except.ok ⟨[(1, 1)], [(1, [0])], [], [(1, 7)]⟩) ∧
    (accumulate (buildMapper [("A", 0)]) [["A"]] (fun _ => [⟨"A", 1, 7⟩, ⟨"A", 1, 9⟩]) =
      Except.error "KeyError: map_ch_offsets") := by
  decide

/-- Claim C2 (the code violates it): on every non-empty delta sequence whose
minimum equals its maximum — i.e. every non-empty constant sequence — the
histogram alignment step raises instead of forming a degenerate bin: the
edge list `np.arange(min, min + 5, 5)` has a single element, so the
histogram is empty and `np.argmax` raises `ValueError`. -/
theorem C2_degenerate_histogram_raises (x : Int) (n : Nat) :
    histogramAlign (x :: List.replicate n x) =
      Except.error "ValueError: attempt to get argmax of an empty sequence" :=
  histogramAlign_min_eq_max _ x (min?_const x n) (max?_const x n)

/-- Claim C4 (the code violates it): a query whose lookups return 105 rows
for item 1, all with deltas inside one width-5 window (intended maximal bin
count 105 > 100, so the item should be reported as confirmed), instead
makes `return_matches` raise `KeyError` on `map_ch_offsets` while
accumulating the second row — no item is ever reported. -/
theorem C4_confirmation_never_reached :
    return_matches 0 0 0 [("A", 0)] 1000
      (fun _ => (List.range 105).map (fun i => ⟨"A", 1, 7 + ((i : Int) % 5)⟩)) =
      Except.error "KeyError: map_ch_offsets" := by
  decide

/-- Claim C5 (amended): canonicalization to uppercase happens on the query
side only.  Every query pair's offset is recorded in the mapper under its
upper-cased token (first conjunct), every mapper key is the upper-cased
form of some query token (second conjunct), but a fetched row's token is
looked up in the mapper verbatim: a row whose token is not literally a
mapper key — e.g. differing only in case — raises `KeyError` instead of
contributing delta samples (third conjunct). -/
theorem C5_token_case_normalization (hashes : List (String × Int)) :
    (∀ p ∈ hashes, p.2 ∈ (dictGet (upperStr p.1) (buildMapper hashes)).getD []) ∧
    (∀ k ∈ (buildMapper hashes).map Prod.fst, ∃ p ∈ hashes, k = upperStr p.1) ∧
    (∀ (mapper : List (String × List Int)) (st : AccState) (r : Row),
        dictGet r.sid st.dedup = none → dictGet r.hsh mapper = none →
        processRow mapper st r = Except.error "KeyError: mapper") := by
  refine ⟨fun p hp => mem_buildMapper_aux hashes [] p hp, fun k hk => ?_, ?_⟩
  · rcases keys_buildMapper_aux hashes [] k hk with h | h
    · cases h
    · exact h
  · intro mapper st r h1 h2
    unfold processRow
    rw [h1, h2]

/-- Witness for C5: the first conjunct instantiated on the concrete query
pair `("a", 0)`, whose offset is recorded under the upper-cased key. -/
theorem C5_token_case_normalization_witness :
    (0 : Int) ∈ (dictGet (upperStr "a") (buildMapper [("a", 0)])).getD [] :=
  (C5_token_case_normalization [("a", 0)]).1 ("a", 0) (List.mem_singleton.2 rfl)

/-- Counterexample to claim C5 as stated: the query pair `("a", 0)` is
recorded under the canonical key `"A"` (second conjunct), yet a stored row
carrying the token `"a"` — the same token differing only in case from the
canonical key — makes the matching operation raise `KeyError` on the
verbatim mapper lookup instead of contributing a delta sample under the
normalized key. -/
theorem C5_row_token_lookup_counterexample :
    (accumulate (buildMapper [("a", 0)]) (chunksOf 1000 ((buildMapper [("a", 0)]).map Prod.fst))
      (fun _ => [⟨"a", 1, 5⟩]) = Except.error "KeyError: mapper") ∧
    dictGet "A" (buildMapper [("a", 0)]) = some [0] := by
  decide

/-- Claim C8: `convert_to_sec2` with the fixed non-negative extraction
constants is a deterministic pure function of its offset: equal offsets
give equal results, it is monotone non-decreasing in the offset, and the
result carries at most 5 decimal digits (multiplying it by 10^5 yields an
integer). -/
theorem C8_convert_to_sec2_properties (fs win ov : ℚ)
    (hfs : 0 ≤ fs) (hwin : 0 ≤ win) (hov : 0 ≤ ov) :
    (∀ o1 o2 : Int, o1 = o2 → convert_to_sec2 fs win ov o1 = convert_to_sec2 fs win ov o2) ∧
    (∀ o1 o2 : Int, o1 ≤ o2 → convert_to_sec2 fs win ov o1 ≤ convert_to_sec2 fs win ov o2) ∧
    (∀ o : Int, ∃ n : ℤ, convert_to_sec2 fs win ov o * 100000 = (n : ℚ)) := by
  refine ⟨fun o1 o2 h => by rw [h], fun o1 o2 h => ?_, fun o => ?_⟩
  · unfold convert_to_sec2
    apply round5_mono
    have h1 : (o1 : ℚ) ≤ (o2 : ℚ) := by exact_mod_cast h
    have h2 : (o1 : ℚ) / fs ≤ (o2 : ℚ) / fs := by
      rw [div_eq_mul_inv, div_eq_mul_inv]
      exact mul_le_mul_of_nonneg_right h1 (inv_nonneg.2 hfs)
    exact mul_le_mul_of_nonneg_right (mul_le_mul_of_nonneg_right h2 hwin) hov
  · refine ⟨roundHalfEven ((o : ℚ) / fs * win * ov * 100000), ?_⟩
    unfold convert_to_sec2 round5
    field_simp

/-- Witness for C8: monotonicity instantiated at the offsets 0 and 1 with
the constants all 0. -/
theorem C8_convert_to_sec2_properties_witness :
    convert_to_sec2 0 0 0 0 ≤ convert_to_sec2 0 0 0 1 :=
  (C8_convert_to_sec2_properties 0 0 0 (le_refl 0) (le_refl 0) (le_refl 0)).2.1 0 1 (by decide)

/-- Claim C9: for an empty query token set and any positive batch size,
`return_matches` does not raise and returns empty results, an empty
raw-count dictionary, no per-item reports, and a cleared `found` flag (the
"no reuse found" fallback is taken), whatever the storage collaborator
would answer. -/
theorem C9_empty_query_no_matches (fs win ov : ℚ) (bs : Nat) (hbs : 0 < bs)
    (db : List String → List Row) :
    return_matches fs win ov [] bs db = Except.ok ⟨[], [], [], false⟩ := by
  unfold return_matches
  rw [if_neg (by omega)]
  dsimp only
  have hchunks : chunksOf bs (((buildMapper []).map Prod.fst : List String)) = [] := by
    unfold chunksOf buildMapper
    have h0 : (bs - 1) / bs = 0 := Nat.div_eq_of_lt (by omega)
    simp [h0]
  rw [hchunks, accumulate_no_rows _ _ _ (by intro c hc; cases hc)]
  rfl

/-- Witness for C9: the claim instantiated at batch size 1000 and a storage
collaborator returning no rows. -/
theorem C9_empty_query_no_matches_witness :
    return_matches 0 0 0 [] 1000 (fun _ => []) = Except.ok ⟨[], [], [], false⟩ :=
  C9_empty_query_no_matches 0 0 0 1000 (by decide) (fun _ => [])

/-- Claim C10: for every query (and positive batch size) whose batched
lookups all return zero stored rows, `return_matches` does not raise and
returns empty results, an empty raw-count dictionary, no per-item reports,
and a cleared `found` flag (the "no reuse found" fallback is taken). -/
theorem C10_all_lookups_empty_no_matches (fs win ov : ℚ) (hashes : List (String × Int))
    (bs : Nat) (hbs : 0 < bs) (db : List String → List Row)
    (hdb : ∀ c ∈ chunksOf bs ((buildMapper hashes).map Prod.fst), db c = []) :
    return_matches fs win ov hashes bs db = Except.ok ⟨[], [], [], false⟩ := by
  unfold return_matches
  rw [if_neg (by omega)]
  dsimp only
  rw [accumulate_no_rows _ _ _ hdb]
  rfl

/-- Witness for C10: the claim instantiated on a one-token query against a
storage collaborator returning no rows. -/
theorem C10_all_lookups_empty_no_matches_witness :
    return_matches 0 0 0 [("a", 3)] 1 (fun _ => []) = Except.ok ⟨[], [], [], false⟩ :=
  C10_all_lookups_empty_no_matches 0 0 0 [("a", 3)] 1 (by decide) (fun _ => [])
    (by intro c hc; rfl)

end Dejavu
